import Mathlib

/-!
Verification of the file-to-rule converter pipeline
(`asr_challenge/rule_generator.py`, `asr_challenge/main.py`,
`asr_challenge/file_processor.py`, `security-rule-converter/converter/main.py`).

Strings are modelled as Lean `String` / `List Char`; file bytes as `List Nat`.
Python helpers used by the code (`str.split`, `str.strip`, `str.join`,
`str.endswith`, `in`, slicing, `re.sub`) are embedded as executable
definitions below.  I/O failure points (opening a file for hashing, opening a
file for text reading) are modelled with `Option`: `none` means the
corresponding operation raised.  `\x7b` and `\x7d` in string literals are the
brace characters of the rendered rule templates.
-/

namespace SecRules

/-- Python `str.split(sep)` for a single-character separator: splits at every
occurrence, keeping empty fields; the result is never empty. -/
def splitOnChar (sep : Char) : List Char → List (List Char)
  | [] => [[]]
  | c :: rest =>
    let s := splitOnChar sep rest
    if c = sep then [] :: s
    else (c :: s.headD []) :: s.tail

/-- Python `str.strip()`: drop whitespace from both ends. -/
def pyStrip (l : List Char) : List Char :=
  ((l.dropWhile Char.isWhitespace).reverse.dropWhile Char.isWhitespace).reverse

/-- Python `sep.join(parts)`. -/
def join_with (sep : String) : List String → String
  | [] => ""
  | [x] => x
  | x :: y :: rest => x ++ sep ++ join_with sep (y :: rest)

/-- Python `needle in hay` for strings (substring containment test). -/
def pyContains (hay needle : List Char) : Bool :=
  hay.tails.any fun t => needle.isPrefixOf t

/-- Python `s.endswith(suffix)`. -/
def pyEndsWith (s suffix : String) : Bool :=
  suffix.data.isSuffixOf s.data

/-- Python `s.replace(old, new)` for single characters. -/
def pyReplaceChar (old new : Char) (l : List Char) : List Char :=
  l.map fun c => if c = old then new else c

/-- Split a list into consecutive chunks of `n` elements (the last chunk may
be shorter); models reading a file `n` bytes at a time. -/
def toChunksOf (n : Nat) : List α → List (List α)
  | [] => []
  | c :: rest => (c :: rest.take (n - 1)) :: toChunksOf n (rest.drop (n - 1))
termination_by l => l.length
decreasing_by
  simp only [List.length_cons, List.length_drop]
  omega

/-- UTF-8 encoding of one character (Python `str.encode()`, per code point). -/
def charUtf8 (c : Char) : List Nat :=
  let n := c.toNat
  if n < 128 then [n]
  else if n < 2048 then [192 + n / 64, 128 + n % 64]
  else if n < 65536 then [224 + n / 4096, 128 + n / 64 % 64, 128 + n % 64]
  else [240 + n / 262144, 128 + n / 4096 % 64, 128 + n / 64 % 64, 128 + n % 64]

/-- UTF-8 encoding of a string (Python `str.encode()`). -/
def encodeUtf8 (s : String) : List Nat :=
  s.data.flatMap charUtf8

/-! ## MD5 (`hashlib.md5`), RFC 1321, over byte lists -/

/-- 2^32, the word modulus of MD5. -/
def M32 : Nat := 4294967296

/-- Addition modulo 2^32. -/
def add32 (a b : Nat) : Nat := (a + b) % M32

/-- Bitwise complement within 32 bits. -/
def not32 (a : Nat) : Nat := (a % M32) ^^^ 4294967295

/-- Left rotation of a 32-bit word by `n` bits. -/
def rotl32 (x n : Nat) : Nat := ((x % M32) * 2 ^ n + (x % M32) / 2 ^ (32 - n)) % M32

/-- MD5 round function F. -/
def mdF (b c d : Nat) : Nat := (b &&& c) ||| (not32 b &&& d)

/-- MD5 round function G. -/
def mdG (b c d : Nat) : Nat := (d &&& b) ||| (not32 d &&& c)

/-- MD5 round function H. -/
def mdH (b c d : Nat) : Nat := b ^^^ c ^^^ d

/-- MD5 round function I. -/
def mdI (b c d : Nat) : Nat := c ^^^ (b ||| not32 d)

/-- The 64 MD5 sine-derived constants. -/
def mdK : List Nat :=
  [3614090360, 3905402710, 606105819, 3250441966, 4118548399, 1200080426,
   2821735955, 4249261313, 1770035416, 2336552879, 4294925233, 2304563134,
   1804603682, 4254626195, 2792965006, 1236535329, 4129170786, 3225465664,
   643717713, 3921069994, 3593408605, 38016083, 3634488961, 3889429448,
   568446438, 3275163606, 4107603335, 1163531501, 2850285829, 4243563512,
   1735328473, 2368359562, 4294588738, 2272392833, 1839030562, 4259657740,
   2763975236, 1272893353, 4139469664, 3200236656, 681279174, 3936430074,
   3572445317, 76029189, 3654602809, 3873151461, 530742520, 3299628645,
   4096336452, 1126891415, 2878612391, 4237533241, 1700485571, 2399980690,
   4293915773, 2240044497, 1873313359, 4264355552, 2734768916, 1309151649,
   4149444226, 3174756917, 718787259, 3951481745]

/-- The 64 MD5 per-round shift amounts. -/
def mdS : List Nat :=
  [7, 12, 17, 22, 7, 12, 17, 22, 7, 12, 17, 22, 7, 12, 17, 22,
   5, 9, 14, 20, 5, 9, 14, 20, 5, 9, 14, 20, 5, 9, 14, 20,
   4, 11, 16, 23, 4, 11, 16, 23, 4, 11, 16, 23, 4, 11, 16, 23,
   6, 10, 15, 21, 6, 10, 15, 21, 6, 10, 15, 21, 6, 10, 15, 21]

/-- Message-word index used at round `i`. -/
def mdGIdx (i : Nat) : Nat :=
  if i < 16 then i
  else if i < 32 then (5 * i + 1) % 16
  else if i < 48 then (3 * i + 5) % 16
  else (7 * i) % 16

/-- Nonlinear function used at round `i`. -/
def mdFun (i b c d : Nat) : Nat :=
  if i < 16 then mdF b c d
  else if i < 32 then mdG b c d
  else if i < 48 then mdH b c d
  else mdI b c d

/-- One MD5 round step on the running state `(a, b, c, d)`. -/
def md5step (M : List Nat) (st : Nat × Nat × Nat × Nat) (i : Nat) :
    Nat × Nat × Nat × Nat :=
  let a := st.1
  let b := st.2.1
  let c := st.2.2.1
  let d := st.2.2.2
  let f := add32 (add32 (mdFun i b c d) a) (add32 (mdK.getD i 0) (M.getD (mdGIdx i) 0))
  (d, add32 b (rotl32 f (mdS.getD i 0)), b, c)

/-- Process one 16-word block, adding the round result to the state. -/
def md5block (st : Nat × Nat × Nat × Nat) (M : List Nat) : Nat × Nat × Nat × Nat :=
  let r := (List.range 64).foldl (md5step M) st
  (add32 st.1 r.1, add32 st.2.1 r.2.1, add32 st.2.2.1 r.2.2.1, add32 st.2.2.2 r.2.2.2)

/-- MD5 padding: append `0x80`, zero bytes to 56 mod 64, then the
little-endian 64-bit bit length. -/
def md5pad (msg : List Nat) : List Nat :=
  let L := msg.length
  let zeros := (120 - (L + 1) % 64) % 64
  msg ++ [128] ++ List.replicate zeros 0 ++
    ((List.range 8).map fun i => 8 * L / 2 ^ (8 * i) % 256)

/-- A little-endian 32-bit word from up to four bytes. -/
def leWord (bs : List Nat) : Nat :=
  bs.getD 0 0 % 256 + 256 * (bs.getD 1 0 % 256) + 65536 * (bs.getD 2 0 % 256) +
    16777216 * (bs.getD 3 0 % 256)

/-- The MD5 initial state. -/
def md5init : Nat × Nat × Nat × Nat := (1732584193, 4023233417, 2562383102, 271733878)

/-- Little-endian bytes of a 32-bit word. -/
def wordLEBytes (w : Nat) : List Nat :=
  [w % 256, w / 256 % 256, w / 65536 % 256, w / 16777216 % 256]

/-- The 16 digest bytes of MD5 over a byte list. -/
def md5digestBytes (msg : List Nat) : List Nat :=
  let st := (toChunksOf 64 (md5pad msg)).foldl
    (fun s chunk => md5block s ((toChunksOf 4 chunk).map leWord)) md5init
  wordLEBytes st.1 ++ wordLEBytes st.2.1 ++ wordLEBytes st.2.2.1 ++ wordLEBytes st.2.2.2

/-- The lowercase hexadecimal digit for a nibble (values above 15 map to a
dummy; every call site passes a value below 16). -/
def hexDigitChar (n : Nat) : Char :=
  if n < 10 then Char.ofNat (48 + n)
  else if n < 16 then Char.ofNat (87 + n)
  else '0'

/-- The two lowercase hex digits of a byte. -/
def hexByte (b : Nat) : List Char :=
  [hexDigitChar (b / 16 % 16), hexDigitChar (b % 16)]

/-- Lowercase hex digest of MD5 over a byte list (Python
`hashlib.md5(data).hexdigest()`). -/
def md5hex (msg : List Nat) : String :=
  String.mk ((md5digestBytes msg).flatMap hexByte)

/-- A `hashlib.md5()` object: its state is the bytes fed so far. -/
def md5ctx_update (ctx chunk : List Nat) : List Nat := ctx ++ chunk

/-- The `hexdigest()` of an md5 object. -/
def md5ctx_hexdigest (ctx : List Nat) : String := md5hex ctx

/-- The `RuleGenerator._calculate_file_hash`: stream the file in 4096-byte chunks
through a running MD5 digest; on any I/O failure (`none`) return the sentinel
string.  The Lean function is total: it never raises. -/
def calculate_file_hash : Option (List Nat) → String
  | none => "hash_calculation_failed"
  | some content => md5ctx_hexdigest ((toChunksOf 4096 content).foldl md5ctx_update [])

/-! ## Data model (`asr_challenge/rule_generator.py`) -/

/-- The `RuleGenerator.__init__` metadata mapping (author, creation time,
version, description); `created` is `datetime.now().isoformat()` at
construction, modelled as an arbitrary string. -/
structure RuleGenMeta where
  author : String
  created : String
  version : String
  description : String
deriving DecidableEq, Repr

/-- The analysis mapping produced by `FileProcessor.analyze_file`, restricted
to the two keys the generator reads via `.get` with defaults; a `none` field
models an absent key (the processor returns an empty mapping on failure). -/
structure Analysis where
  file_type : Option String
  file_size : Option Nat
deriving DecidableEq, Repr

/-- An input file as seen by the generator: `bytes` is the content of the
binary open used for hashing, `text` the content of the text-mode open used
for indicator extraction (decoded in the ignore-errors mode, so decoding never
fails); `none` models the corresponding `open`/read raising. -/
structure SourceFile where
  bytes : Option (List Nat)
  text : Option String
deriving DecidableEq, Repr

/-- The metadata record built by `RuleGenerator._generate_metadata`. -/
structure Metadata where
  author : String
  created : String
  version : String
  description : String
  source_file : String
  file_size : Nat
  file_type : String
  analysis_date : String
  file_hash : String
  indicators_found : List String
  status : String
deriving DecidableEq, Repr

/-- The mapping returned by `RuleGenerator.generate_rules`: the keys
`yara`, `sigma` and `metadata` (always all three present). -/
structure RuleBundle where
  yara : String
  sigma : String
  metadata : Metadata
deriving DecidableEq, Repr

/-! ## Indicator extraction -/

/-- The fixed pattern list of
`RuleGenerator._extract_indicators_from_content` (pattern, category). -/
def indicator_patterns : List (String × String) :=
  [("http://", "URL"), ("https://", "URL"), (".exe", "Executable"),
   (".dll", "Library"), ("malware", "Malware reference"),
   ("virus", "Virus reference"), ("trojan", "Trojan reference"),
   ("backdoor", "Backdoor reference"), ("adware", "Adware reference"),
   ("spyware", "Spyware reference")]

/-- Format one matched pattern as the indicator string
`"<Category>: <pattern>"`. -/
def fmt_indicator (pr : String × String) : String :=
  pr.2 ++ ": " ++ pr.1

/-- The `RuleGenerator._extract_indicators_from_content`: for each pattern of the
fixed list that occurs in the lowercased content, append
`"<Category>: <pattern>"`; return at most the first 5. -/
def extract_indicators_from_content (content : String) : List String :=
  ((indicator_patterns.filter fun pr =>
      pyContains content.toLower.data pr.1.data).map fmt_indicator).take 5

/-! ## YARA rendering -/

/-- The sanitization applied to the filename in
`_generate_yara_rule` / `_generate_csv_yara_rule` / `_generate_basic_yara_rule`:
`filename.replace('.', '_').replace(' ', '_')`. -/
def sanitize_filename (s : String) : String :=
  String.mk (pyReplaceChar ' ' '_' (pyReplaceChar '.' '_' s.data))

/-- Rule identifier of the generic YARA rule (`Rule_` + sanitized filename). -/
def yara_rule_name (filename : String) : String :=
  "Rule_" ++ sanitize_filename filename

/-- The `$file_name` entry of the strings section. -/
def yara_file_entry (filename : String) : String :=
  "        $file_name = \"" ++ filename ++ "\" wide ascii"

/-- The `$hash` entry of the strings section. -/
def yara_hash_entry (file_hash : String) : String :=
  "        $hash = \"" ++ file_hash ++ "\""

/-- The literal embedded for one indicator:
`indicator.split(':')[-1].strip()`. -/
def extract_indicator_text (s : String) : String :=
  String.mk (pyStrip (List.getLastD (splitOnChar ':' s.data) []))

/-- The `$indicator_<i>` entry of the strings section (index as rendered,
starting at 1). -/
def indicator_entry (i : Nat) (s : String) : String :=
  "        $indicator_" ++ toString i ++ " = \"" ++ extract_indicator_text s ++ "\" nocase"

/-- The indicator entries for `for i, indicator in enumerate(indicators[:3])`,
labelling from index `i`. -/
def indicator_entries_from (i : Nat) : List String → List String
  | [] => []
  | s :: rest => indicator_entry i s :: indicator_entries_from (i + 1) rest

/-- The indicator entries of the strings section: the first three indicators,
labelled `$indicator_1` onwards. -/
def indicator_entries (indicators : List String) : List String :=
  indicator_entries_from 1 (indicators.take 3)

/-- The entry list built by `RuleGenerator._create_strings_section`. -/
def create_strings_entries (filename file_hash : String) (indicators : List String) :
    List String :=
  yara_file_entry filename :: yara_hash_entry file_hash :: indicator_entries indicators

/-- The `RuleGenerator._create_strings_section`: the entries joined by newlines. -/
def create_strings_section (filename file_hash : String) (indicators : List String) :
    String :=
  join_with "\n" (create_strings_entries filename file_hash indicators)

/-- The `RuleGenerator._generate_yara_rule`: the generic YARA rule text. -/
def generate_yara_rule (m : RuleGenMeta) (filename : String) (analysis : Analysis)
    (file_hash : String) (indicators : List String) : String :=
  "rule " ++ yara_rule_name filename ++ "\n\x7b\n    meta:\n        author = \"" ++
    m.author ++ "\"\n        date = \"" ++ m.created ++
    "\"\n        description = \"Generated from " ++ filename ++
    "\"\n        file_type = \"" ++ analysis.file_type.getD "unknown" ++
    "\"\n        file_size = " ++ toString (analysis.file_size.getD 0) ++
    "\n        md5 = \"" ++ file_hash ++ "\"\n\n    strings:\n" ++
    create_strings_section filename file_hash indicators ++
    "\n        \n    condition:\n        any of them\n\x7d\n"

/-- The `RuleGenerator._generate_csv_yara_rule`: the CSV-branch YARA rule text
(file type hardcoded to `text/csv`; strings section holds exactly the
filename entry and the hash entry). -/
def generate_csv_yara_rule (m : RuleGenMeta) (filename file_hash : String) : String :=
  "rule CSV_Rule_" ++ sanitize_filename filename ++
    "\n\x7b\n    meta:\n        author = \"" ++ m.author ++
    "\"\n        date = \"" ++ m.created ++
    "\"\n        description = \"Basic rule for CSV file: " ++ filename ++
    "\"\n        file_type = \"" ++ "text/csv" ++ "\"\n\n    strings:\n" ++
    join_with "\n" [yara_file_entry filename, yara_hash_entry file_hash] ++
    "\n        \n    condition:\n        any of them\n\x7d\n"

/-- The `RuleGenerator._generate_basic_yara_rule`: the fallback YARA rule text. -/
def generate_basic_yara_rule (m : RuleGenMeta) (filename file_hash : String) : String :=
  "rule Basic_Rule_" ++ sanitize_filename filename ++
    "\n\x7b\n    meta:\n        author = \"" ++ m.author ++
    "\"\n        date = \"" ++ m.created ++
    "\"\n        description = \"Basic rule for " ++ filename ++
    "\"\n\n    strings:\n" ++
    join_with "\n" [yara_file_entry filename, yara_hash_entry file_hash] ++
    "\n        \n    condition:\n        any of them\n\x7d\n"

/-- The `RuleGenerator._generate_sigma_rule`: the Sigma rule text.  The
`analysis` and `file_hash` parameters are accepted, as in the source, but do
not occur in the rendered text; the `id` is the MD5 hex digest of the
UTF-8-encoded filename. -/
def generate_sigma_rule (m : RuleGenMeta) (filename : String) (analysis : Analysis)
    (file_hash : String) : String :=
  "title: Suspicious File - " ++ filename ++ "\nid: " ++
    md5hex (encodeUtf8 filename) ++
    "\nstatus: experimental\ndescription: Detects presence of " ++ filename ++
    "\nauthor: " ++ m.author ++ "\ndate: " ++ m.created ++
    "\nlogsource:\n    category: file_event\ndetection:\n    selection:\n        FileName|endswith: \x27" ++
    filename ++ "\x27\n    condition: selection\nfalsepositives:\n    - Unknown\nlevel: medium\n"

/-- The `RuleGenerator._generate_metadata`: the metadata record; `now` models the
`datetime.now().isoformat()` call made at generation time. -/
def generate_metadata (m : RuleGenMeta) (filename : String) (analysis : Analysis)
    (file_hash : String) (indicators : List String) (now : String) : Metadata :=
  { author := m.author, created := m.created, version := m.version,
    description := m.description, source_file := filename,
    file_size := analysis.file_size.getD 0,
    file_type := analysis.file_type.getD "unknown",
    analysis_date := now, file_hash := file_hash,
    indicators_found := indicators, status := "generated" }

/-- The `RuleGenerator._generate_basic_rules`: fallback bundle (basic YARA rule,
Sigma rule, metadata with an empty indicator list). -/
def generate_basic_rules (m : RuleGenMeta) (filename : String) (analysis : Analysis)
    (file_hash : String) (now : String) : RuleBundle :=
  { yara := generate_basic_yara_rule m filename file_hash,
    sigma := generate_sigma_rule m filename analysis file_hash,
    metadata := generate_metadata m filename analysis file_hash [] now }

/-- The `RuleGenerator.generate_rules`: hash the file, then branch on whether the
filename ends in `.csv`.  The text branch reads the file (raising falls back
to `_generate_basic_rules`, modelled by `text = none`) and extracts
indicators from the full content; the CSV branch performs no content-based
extraction. -/
def generate_rules (m : RuleGenMeta) (filename : String) (analysis : Analysis)
    (file : SourceFile) (now : String) : RuleBundle :=
  let file_hash := calculate_file_hash file.bytes
  if pyEndsWith filename ".csv" then
    { yara := generate_csv_yara_rule m filename file_hash,
      sigma := generate_sigma_rule m filename analysis file_hash,
      metadata := generate_metadata m filename analysis file_hash [] now }
  else
    match file.text with
    | some content =>
      let indicators := extract_indicators_from_content content
      { yara := generate_yara_rule m filename analysis file_hash indicators,
        sigma := generate_sigma_rule m filename analysis file_hash,
        metadata := generate_metadata m filename analysis file_hash indicators now }
    | none => generate_basic_rules m filename analysis file_hash now

/-! ## Orchestrator (`asr_challenge/main.py`) -/

/-- Python truthiness of `rules.get(key)` for a string value: false when the
key is absent or the string is empty. -/
def truthyStr : Option String → Bool
  | none => false
  | some s => s ≠ ""

/-- The rules mapping as seen by `ASRGenerator._save_rules` (keys may be
absent). -/
structure RulesDict where
  yara : Option String
  sigma : Option String
  metadata : Option Metadata
deriving DecidableEq, Repr

/-- The `ASRGenerator._save_rules`: the output file names written for one input
file with stem `base`.  YARA and Sigma writes are guarded by truthiness of
their value; the metadata file is written unconditionally (an absent
`metadata` key is serialized as the empty mapping). -/
def save_rules (rules : RulesDict) (base : String) : List String :=
  (if truthyStr rules.yara then [base ++ "_rules.yar"] else []) ++
    (if truthyStr rules.sigma then [base ++ "_sigma.yml"] else []) ++
    [base ++ "_metadata.json"]

/-- The `ASRGenerator.process_files`: raise `FileNotFoundError` when the input
directory is missing (`none`), else run the per-file pipeline `proc` on every
regular file; a per-file exception (`Except.error`) is logged (recorded as
`none` in the result) and processing continues with the remaining files. -/
def process_files (proc : String → Except String (List String)) :
    Option (List String) → Except String (List (String × Option (List String)))
  | none => Except.error "Input directory not found"
  | some files =>
    Except.ok (files.map fun f =>
      match proc f with
      | Except.ok w => (f, some w)
      | Except.error _ => (f, none))

/-! ## `security-rule-converter/converter/main.py` -/

/-- A word character of the regex class `\w` (ASCII model: letters, digits,
underscore; Python defaults to Unicode word characters, which coincides with
this on ASCII strings). -/
def isWordChar (c : Char) : Bool := c.isAlphanum || c = '_'

/-- Dropping a prefix by a predicate does not lengthen a list. -/
theorem dropWhile_length_le (p : α → Bool) : ∀ l : List α, (l.dropWhile p).length ≤ l.length
  | [] => Nat.le_refl _
  | a :: l => by
    simp only [List.dropWhile]
    split
    · exact Nat.le_succ_of_le (dropWhile_length_le p l)
    · exact Nat.le_refl _

/-- Python `re.sub` of the pattern `\W+` by an underscore, on the character
list: each maximal run of
non-word characters is replaced by a single underscore. -/
def reSubNonWord : List Char → List Char
  | [] => []
  | c :: rest =>
    if isWordChar c then c :: reSubNonWord rest
    else '_' :: reSubNonWord (rest.dropWhile fun x => !isWordChar x)
termination_by l => l.length
decreasing_by
  · simp only [List.length_cons]
    omega
  · simp only [List.length_cons]
    have := dropWhile_length_le (fun x => !isWordChar x) rest
    omega

/-- The rule identifier of `convert_to_yara` / `convert_to_sigma`:
`re.sub` of `\W+` by an underscore over the filename. -/
def convert_rule_name (filename : String) : String :=
  String.mk (reSubNonWord filename.data)

/-- The first 20 characters of the content with every double quote escaped
by a backslash (the snippet embedded by `convert_to_yara`). -/
def yara_snippet (content : String) : String :=
  String.mk ((content.data.take 20).flatMap fun c =>
    if c = '"' then ['\\', '"'] else [c])

/-- The `convert_to_yara` of the converter variant (result of `.strip()` on the
rendered template). -/
def convert_to_yara (filename content : String) : String :=
  String.mk (pyStrip ("\nrule " ++ convert_rule_name filename ++
    "\n\x7b\n    strings:\n        $a = \"" ++ yara_snippet content ++
    "\"\n    condition:\n        $a\n\x7d\n").data)

/-! ## `asr_challenge/file_processor.py` -/

/-- The fixed pattern list of `FileProcessor._find_potential_indicators`. -/
def fp_patterns : List (String × String) :=
  [("http://", "URL"), ("https://", "URL"), (".exe", "Executable"),
   (".dll", "Library"), ("malware", "Malware reference"),
   ("virus", "Virus reference")]

/-- The `FileProcessor._find_potential_indicators`: scan the decoded 4KB prefix
(the argument is the already-decoded text) for the fixed pattern list; no
cap is applied. -/
def find_potential_indicators (text : String) : List String :=
  (fp_patterns.filter fun pr => pyContains text.toLower.data pr.1.data).map fmt_indicator

/-! ## Helper lemmas -/

/-- Chunking a list and flattening recovers the list. -/
theorem toChunksOf_flatten (n : Nat) : ∀ l : List α, (toChunksOf n l).flatten = l
  | [] => by simp [toChunksOf]
  | c :: rest => by
    have ih := toChunksOf_flatten n (rest.drop (n - 1))
    rw [toChunksOf]
    simp only [List.flatten_cons, ih, List.cons_append, List.take_append_drop]
termination_by l => l.length
decreasing_by
  simp only [List.length_cons, List.length_drop]
  omega

/-- Folding `update` over a chunk list feeds the md5 object the
concatenation of the chunks. -/
theorem foldl_md5ctx (L : List (List Nat)) :
    ∀ acc : List Nat, L.foldl md5ctx_update acc = acc ++ L.flatten := by
  induction L with
  | nil => intro acc; simp
  | cons x L ih =>
    intro acc
    simp only [List.foldl_cons, ih, md5ctx_update, List.flatten_cons, List.append_assoc]

/-- Every character produced by `hexDigitChar` is a lowercase hex digit. -/
theorem hexDigitChar_mem (n : Nat) : hexDigitChar n ∈ "0123456789abcdef".data := by
  unfold hexDigitChar
  split
  · next h => interval_cases n <;> decide
  · split
    · next h h2 => interval_cases n <;> decide
    · decide

/-- The `flatMap hexByte` doubles the length. -/
theorem length_flatMap_hexByte : ∀ l : List Nat, (l.flatMap hexByte).length = 2 * l.length
  | [] => rfl
  | b :: l => by
    simp only [List.flatMap_cons, List.length_append, length_flatMap_hexByte l, hexByte,
      List.length_cons, List.length_nil]
    omega

/-- The MD5 digest is sixteen bytes. -/
theorem md5digestBytes_length (msg : List Nat) : (md5digestBytes msg).length = 16 := by
  simp [md5digestBytes, wordLEBytes]

/-- Every character of an MD5 hex digest is a lowercase hex digit. -/
theorem md5hex_chars (msg : List Nat) :
    ((md5hex msg).data.all fun c => "0123456789abcdef".data.contains c) = true := by
  rw [List.all_eq_true]
  intro c hc
  have hc2 : c ∈ (md5digestBytes msg).flatMap hexByte := hc
  rw [List.mem_flatMap] at hc2
  obtain ⟨b, _, hb⟩ := hc2
  have hcases : c = hexDigitChar (b / 16 % 16) ∨ c = hexDigitChar (b % 16) := by
    simpa [hexByte] using hb
  rcases hcases with h | h <;> subst h <;>
    exact List.elem_eq_true_of_mem (hexDigitChar_mem _)

/-- The `indicator_entries_from` produces one entry per indicator. -/
theorem indicator_entries_from_length (i : Nat) :
    ∀ l : List String, (indicator_entries_from i l).length = l.length
  | [] => rfl
  | _ :: l => by
    simp only [indicator_entries_from, List.length_cons, indicator_entries_from_length _ l]

/-- The formatted versions of the extractor pattern list. -/
def all_formatted_indicators : List String := indicator_patterns.map fmt_indicator

/-- The formatted versions of the file-processor pattern list. -/
def fp_formatted_indicators : List String := fp_patterns.map fmt_indicator

/-- The extraction result is an ordered selection from the fixed formatted
pattern list. -/
theorem extract_sublist (content : String) :
    List.Sublist (extract_indicators_from_content content) all_formatted_indicators := by
  unfold extract_indicators_from_content all_formatted_indicators
  exact (List.take_sublist 5 _).trans ((List.filter_sublist _).map fmt_indicator)

/-- The file-processor scan result is an ordered selection from its fixed
formatted pattern list. -/
theorem fp_sublist (text : String) :
    List.Sublist (find_potential_indicators text) fp_formatted_indicators := by
  unfold find_potential_indicators fp_formatted_indicators
  exact (List.filter_sublist _).map fmt_indicator

/-! ## Claim theorems -/

/-- C4: for every file content, `_calculate_file_hash` streams the file in
4096-byte chunks through a running MD5 digest and returns exactly the
lowercase hex digest of the full content (32 lowercase-hex characters), and
on I/O failure it returns exactly `"hash_calculation_failed"`; the modelled
function is total, so it never raises. -/
theorem c4_hash_streaming (bytes : List Nat) :
    calculate_file_hash (some bytes) = md5hex bytes
    ∧ ((md5hex bytes).data.all fun c => "0123456789abcdef".data.contains c) = true
    ∧ (md5hex bytes).length = 32
    ∧ calculate_file_hash none = "hash_calculation_failed" := by
  refine ⟨?_, md5hex_chars bytes, ?_, rfl⟩
  · show md5ctx_hexdigest ((toChunksOf 4096 bytes).foldl md5ctx_update []) = md5hex bytes
    rw [foldl_md5ctx, List.nil_append, toChunksOf_flatten]
    rfl
  · show (md5hex bytes).data.length = 32
    show ((md5digestBytes bytes).flatMap hexByte).length = 32
    rw [length_flatMap_hexByte, md5digestBytes_length]

/-- C5: for every input content, the extraction result has length at most 5
and is an ordered selection from the fixed pattern list (fixed
pattern-list order, not position-in-text order); at most 3 indicator entries
are embedded into the strings section of the rendered pattern-rule, whose
entry list therefore has at most 5 entries in total. -/
theorem c5_caps (content fn h : String) (inds : List String) :
    (extract_indicators_from_content content).length ≤ 5
    ∧ List.Sublist (extract_indicators_from_content content) all_formatted_indicators
    ∧ (indicator_entries inds).length ≤ 3
    ∧ (create_strings_entries fn h inds).length ≤ 5 := by
  have hlen : (indicator_entries inds).length ≤ 3 := by
    rw [indicator_entries, indicator_entries_from_length]
    have := List.length_take_le 3 inds
    omega
  refine ⟨?_, extract_sublist content, hlen, ?_⟩
  · unfold extract_indicators_from_content
    have := List.length_take_le 5
      ((indicator_patterns.filter fun pr =>
        pyContains content.toLower.data pr.1.data).map fmt_indicator)
    omega
  · simp only [create_strings_entries, List.length_cons]
    omega

/-- C10: for every input content, each extractor produces at most one
indicator per pattern of its fixed list (every count is at most 1, the list
has no duplicates), every entry is one of the fixed formatted
`"<Category>: <pattern>"` strings, and entries appear in the fixed
pattern-list order (the result is an ordered sublist of the formatted
pattern list); this holds both for the rule generator's extractor and for
the file processor's 4KB-prefix scan. -/
theorem c10_indicator_uniqueness (content : String) :
    List.Sublist (extract_indicators_from_content content) all_formatted_indicators
    ∧ (extract_indicators_from_content content).Nodup
    ∧ (∀ s : String, (extract_indicators_from_content content).count s ≤ 1)
    ∧ ((extract_indicators_from_content content).all
        fun s => all_formatted_indicators.contains s) = true
    ∧ List.Sublist (find_potential_indicators content) fp_formatted_indicators
    ∧ (find_potential_indicators content).Nodup
    ∧ (∀ s : String, (find_potential_indicators content).count s ≤ 1) := by
  have hnd : all_formatted_indicators.Nodup := by decide
  have hnd2 : fp_formatted_indicators.Nodup := by decide
  have h1 := extract_sublist content
  have h2 := fp_sublist content
  have hnodup1 : (extract_indicators_from_content content).Nodup := hnd.sublist h1
  have hnodup2 : (find_potential_indicators content).Nodup := hnd2.sublist h2
  refine ⟨h1, hnodup1, fun s => List.nodup_iff_count_le_one.mp hnodup1 s, ?_, h2, hnodup2,
    fun s => List.nodup_iff_count_le_one.mp hnodup2 s⟩
  rw [List.all_eq_true]
  intro s hs
  exact List.elem_eq_true_of_mem (h1.subset hs)

/-- A list infix stays an infix after prepending on the left. -/
theorem appendLeft_isInfix {l b : List Char} (a : List Char) (h : l <:+: b) : l <:+: a ++ b := by
  obtain ⟨s, t, rfl⟩ := h
  exact ⟨a ++ s, t, by simp [List.append_assoc]⟩

/-- A list is an infix of itself followed by anything. -/
theorem selfAppend_isInfix (l t : List Char) : l <:+: l ++ t := ⟨[], t, by simp⟩

/-- A string that is a prefix of neither `a` nor vice versa is not a prefix
of `a ++ b`. -/
theorem not_prefix_of_incomparable {p a : List Char} (b : List Char)
    (h1 : ¬ p <+: a) (h2 : ¬ a <+: p) : ¬ p <+: a ++ b := fun h =>
  ( List.prefix_or_prefix_of_prefix h (List.prefix_append a b)).elim h1 h2

/-- Appending distinct suffixes to the same string gives distinct strings. -/
theorem append_ne_of_ne {s t : String} (base : String) (h : s ≠ t) :
    base ++ s ≠ base ++ t := fun he => by
  have hd : base.data ++ s.data = base.data ++ t.data := by
    simpa [String.data_append] using congrArg String.data he
  exact h (String.ext (List.append_cancel_left hd))

/-- The tail of a nonempty joined list starts with its head. -/
theorem join_with_tail (sep y : String) (rest : List String) :
    ∃ q, join_with sep (y :: rest) = y ++ q := by
  cases rest with
  | nil => exact ⟨"", by simp [join_with, String.append_empty]⟩
  | cons z rs => exact ⟨sep ++ join_with sep (z :: rs), by
      simp [join_with, String.append_assoc]⟩

/-- The Sigma rule produced by every branch of `generate_rules` is
`_generate_sigma_rule` applied to the filename. -/
theorem generate_rules_sigma (m : RuleGenMeta) (fn : String) (a : Analysis)
    (f : SourceFile) (now : String) :
    (generate_rules m fn a f now).sigma =
      generate_sigma_rule m fn a (calculate_file_hash f.bytes) := by
  unfold generate_rules generate_basic_rules
  simp only
  split
  · rfl
  · split <;> rfl

/-- Replacing dots, then spaces, by underscores is idempotent pointwise. -/
theorem sanitize_idem (s : String) :
    sanitize_filename (sanitize_filename s) = sanitize_filename s := by
  unfold sanitize_filename pyReplaceChar
  refine congrArg String.mk ?_
  show ((((s.data.map _).map _).map _).map _) = (s.data.map _).map _
  simp only [List.map_map]
  refine List.map_congr_left fun c _ => ?_
  by_cases h1 : c = '.' <;> by_cases h2 : c = ' ' <;> simp [Function.comp, h1, h2]

/-- The `\W+`-to-underscore substitution outputs only word characters. -/
theorem reSub_all_word : ∀ l : List Char, ((reSubNonWord l).all isWordChar) = true
  | [] => by rw [reSubNonWord]; rfl
  | c :: rest => by
    rw [reSubNonWord]
    split
    · next h =>
      simp only [List.all_cons, h, Bool.true_and]
      exact reSub_all_word rest
    · simp only [List.all_cons, Bool.and_eq_true]
      exact ⟨by decide, reSub_all_word _⟩
termination_by l => l.length
decreasing_by
  all_goals
    simp only [List.length_cons]
    have := dropWhile_length_le (fun x => !isWordChar x) rest
    omega

/-- The `\W+`-to-underscore substitution is the identity on all-word-character
strings. -/
theorem reSub_id_of_word : ∀ l : List Char, (l.all isWordChar) = true → reSubNonWord l = l
  | [], _ => by rw [reSubNonWord]
  | c :: rest, h => by
    rw [List.all_cons, Bool.and_eq_true] at h
    rw [reSubNonWord, if_pos h.1, reSub_id_of_word rest h.2]

/-- C2 counterexample: the claim says the rendered rule identifier contains
no characters outside `[A-Za-z0-9_]` for every filename, but the generator
only replaces dots and spaces, so the hyphen of `a-b.txt` survives into the
identifier `Rule_a-b_txt`. -/
theorem c2_counterexample :
    yara_rule_name "a-b.txt" = "Rule_a-b_txt"
    ∧ ((yara_rule_name "a-b.txt").data.all isWordChar) = false := by
  constructor <;> decide

/-- C2 amended: the rule-generator sanitizer only replaces `.` and space by
`_` (so other non-word characters survive) and is idempotent; the converter
variant, substituting every `\W+` run by an underscore, yields identifiers of word
characters only and is idempotent as well. -/
theorem c2_sanitizer_props (s : String) :
    sanitize_filename (sanitize_filename s) = sanitize_filename s
    ∧ ((convert_rule_name s).data.all isWordChar) = true
    ∧ convert_rule_name (convert_rule_name s) = convert_rule_name s := by
  refine ⟨sanitize_idem s, reSub_all_word s.data, ?_⟩
  unfold convert_rule_name
  exact congrArg String.mk (reSub_id_of_word _ (reSub_all_word s.data))

/-- C7 counterexample: with all three keys absent from the rules mapping,
`_save_rules` still writes the metadata file, so the metadata write is not
skipped when its content is absent. -/
theorem c7_counterexample :
    save_rules { yara := none, sigma := none, metadata := none } "f" =
      ["f_metadata.json"] := rfl

/-- C7 amended: `_save_rules` writes up to three files; the pattern-rule and
log-detection-rule writes are skipped when their content is absent (or
empty, by Python truthiness), but the metadata JSON is always written, with
an empty mapping when the metadata key is absent. -/
theorem c7_save_writes (rules : RulesDict) (base : String) :
    (base ++ "_metadata.json") ∈ save_rules rules base
    ∧ (save_rules rules base).length ≤ 3
    ∧ ((base ++ "_rules.yar") ∈ save_rules rules base ↔ truthyStr rules.yara = true)
    ∧ ((base ++ "_sigma.yml") ∈ save_rules rules base ↔ truthyStr rules.sigma = true) := by
  have h1 : base ++ "_rules.yar" ≠ base ++ "_sigma.yml" := append_ne_of_ne base (by decide)
  have h2 : base ++ "_rules.yar" ≠ base ++ "_metadata.json" := append_ne_of_ne base (by decide)
  have h3 : base ++ "_sigma.yml" ≠ base ++ "_metadata.json" := append_ne_of_ne base (by decide)
  have h4 := Ne.symm h1
  have h5 := Ne.symm h2
  have h6 := Ne.symm h3
  unfold save_rules
  cases hy : truthyStr rules.yara <;> cases hs : truthyStr rules.sigma <;>
    simp_all [List.mem_append]

/-- C8: a missing input directory (`none`) aborts the run with the raised
error and no file is processed, while with an existing directory every file
is processed, whatever `proc` does on each: a per-file exception is recorded
(logged) and processing continues, so the result lists every input file in
order. -/
theorem c8_isolation (proc : String → Except String (List String))
    (files : List String) :
    process_files proc none = Except.error "Input directory not found"
    ∧ ∃ l, process_files proc (some files) = Except.ok l ∧ l.map Prod.fst = files := by
  refine ⟨rfl, (files.map fun f =>
    match proc f with
    | Except.ok w => (f, some w)
    | Except.error _ => (f, none)), rfl, ?_⟩
  induction files with
  | nil => rfl
  | cons f fs ih =>
    simp only [List.map_cons]
    cases hpf : proc f <;> simp [ih]

/-- C9: for a fixed generator instance, the rendered Sigma rule depends only
on the filename: different analysis records, file contents and hash values
give the identical Sigma text, and every rendering branch (generic text,
CSV, and fallback) yields that same text. -/
theorem c9_sigma_depends_only_on_filename (m : RuleGenMeta) (fn : String)
    (a a2 : Analysis) (f f2 : SourceFile) (now now2 : String) :
    (generate_rules m fn a f now).sigma = (generate_rules m fn a2 f2 now2).sigma
    ∧ (generate_rules m fn a f now).sigma =
        generate_sigma_rule m fn a (calculate_file_hash f.bytes) := by
  rw [generate_rules_sigma, generate_rules_sigma]
  exact ⟨rfl, rfl⟩

/-- The generic YARA rule embeds the `$hash` entry. -/
theorem generic_contains_hash (m : RuleGenMeta) (fn : String) (a : Analysis)
    (h : String) (inds : List String) :
    (yara_hash_entry h).data <:+: (generate_yara_rule m fn a h inds).data := by
  obtain ⟨q, hq⟩ := join_with_tail "\n" (yara_hash_entry h) (indicator_entries inds)
  unfold generate_yara_rule create_strings_section create_strings_entries
  simp only [join_with]
  rw [hq]
  simp only [String.data_append, List.append_assoc]
  repeat first | exact selfAppend_isInfix _ _ | apply appendLeft_isInfix

/-- The CSV YARA rule embeds the `$hash` entry. -/
theorem csv_contains_hash (m : RuleGenMeta) (fn h : String) :
    (yara_hash_entry h).data <:+: (generate_csv_yara_rule m fn h).data := by
  unfold generate_csv_yara_rule
  simp only [join_with, String.data_append, List.append_assoc]
  repeat first | exact selfAppend_isInfix _ _ | apply appendLeft_isInfix

/-- The fallback YARA rule embeds the `$hash` entry. -/
theorem basic_contains_hash (m : RuleGenMeta) (fn h : String) :
    (yara_hash_entry h).data <:+: (generate_basic_yara_rule m fn h).data := by
  unfold generate_basic_yara_rule
  simp only [join_with, String.data_append, List.append_assoc]
  repeat first | exact selfAppend_isInfix _ _ | apply appendLeft_isInfix

/-- C3: for every file, the hash embedded in the metadata record equals the
Hash Computer's output, the rendered pattern-rule of every branch embeds the
`$hash` entry carrying that same output, and when hashing fails the bundle
is still produced with the sentinel failure string as its hash. -/
theorem c3_hash_consistency (m : RuleGenMeta) (fn : String) (a : Analysis)
    (file : SourceFile) (now : String) :
    (generate_rules m fn a file now).metadata.file_hash = calculate_file_hash file.bytes
    ∧ (yara_hash_entry (calculate_file_hash file.bytes)).data <:+:
        (generate_rules m fn a file now).yara.data
    ∧ (generate_rules m fn a { bytes := none, text := file.text } now).metadata.file_hash =
        "hash_calculation_failed" := by
  refine ⟨?_, ?_, ?_⟩
  · unfold generate_rules generate_basic_rules
    simp only
    split
    · rfl
    · split <;> rfl
  · unfold generate_rules generate_basic_rules
    simp only
    split
    · exact csv_contains_hash m fn _
    · split
      · exact generic_contains_hash m fn a _ _
      · exact basic_contains_hash m fn _
  · unfold generate_rules generate_basic_rules
    simp only
    split
    · rfl
    · split <;> rfl

/-- C6: when the filename ends in `.csv` the CSV branch is taken: the bundle
does not depend on the file's text content (no content-based extraction),
the rendered pattern-rule is the CSV rule, whose strings section is exactly
the filename entry followed by the hash entry (neither of which is an
indicator entry), the rendered text embeds the hardcoded type literal
`text/csv`, and the metadata indicator list is empty. -/
theorem c6_csv_branch (m : RuleGenMeta) (fn : String) (a : Analysis)
    (bytes : Option (List Nat)) (t1 t2 : Option String) (now : String)
    (hcsv : pyEndsWith fn ".csv" = true) :
    generate_rules m fn a { bytes := bytes, text := t1 } now =
      generate_rules m fn a { bytes := bytes, text := t2 } now
    ∧ (generate_rules m fn a { bytes := bytes, text := t1 } now).yara =
        generate_csv_yara_rule m fn (calculate_file_hash bytes)
    ∧ (∃ p q : String, generate_csv_yara_rule m fn (calculate_file_hash bytes) =
        p ++ join_with "\n"
          [yara_file_entry fn, yara_hash_entry (calculate_file_hash bytes)] ++ q)
    ∧ "text/csv".data <:+: (generate_csv_yara_rule m fn (calculate_file_hash bytes)).data
    ∧ ¬ ("        $indicator".data <+: (yara_file_entry fn).data)
    ∧ ¬ ("        $indicator".data <+:
          (yara_hash_entry (calculate_file_hash bytes)).data)
    ∧ (generate_rules m fn a { bytes := bytes, text := t1 } now).metadata.indicators_found
        = [] := by
  refine ⟨?_, ?_, ?_, ?_, ?_, ?_, ?_⟩
  · unfold generate_rules
    rw [hcsv]
    simp only [if_true]
  · unfold generate_rules
    rw [hcsv]
    simp only [if_true]
  · refine ⟨"rule CSV_Rule_" ++ sanitize_filename fn ++
      "\n\x7b\n    meta:\n        author = \"" ++ m.author ++
      "\"\n        date = \"" ++ m.created ++
      "\"\n        description = \"Basic rule for CSV file: " ++ fn ++
      "\"\n        file_type = \"" ++ "text/csv" ++ "\"\n\n    strings:\n",
      "\n        \n    condition:\n        any of them\n\x7d\n", rfl⟩
  · unfold generate_csv_yara_rule
    simp only [join_with, String.data_append, List.append_assoc]
    repeat first | exact selfAppend_isInfix _ _ | apply appendLeft_isInfix
  · unfold yara_file_entry
    simp only [String.data_append, List.append_assoc]
    exact not_prefix_of_incomparable _ (by decide) (by decide)
  · unfold yara_hash_entry
    simp only [String.data_append, List.append_assoc]
    exact not_prefix_of_incomparable _ (by decide) (by decide)
  · unfold generate_rules
    rw [hcsv]
    simp only [if_true]
    rfl

/-- C6 witness: the concrete file `data.csv` with unreadable content. -/
theorem c6_csv_branch_witness :
    generate_rules { author := "a", created := "d", version := "v", description := "x" }
        "data.csv" { file_type := none, file_size := none }
        { bytes := none, text := none } "n" =
      generate_rules { author := "a", created := "d", version := "v", description := "x" }
        "data.csv" { file_type := none, file_size := none }
        { bytes := none, text := some "http://evil" } "n"
    ∧ (generate_rules { author := "a", created := "d", version := "v", description := "x" }
        "data.csv" { file_type := none, file_size := none }
        { bytes := none, text := none } "n").yara =
        generate_csv_yara_rule
          { author := "a", created := "d", version := "v", description := "x" }
          "data.csv" (calculate_file_hash none)
    ∧ (∃ p q : String, generate_csv_yara_rule
          { author := "a", created := "d", version := "v", description := "x" }
          "data.csv" (calculate_file_hash none) =
        p ++ join_with "\n"
          [yara_file_entry "data.csv", yara_hash_entry (calculate_file_hash none)] ++ q)
    ∧ "text/csv".data <:+: (generate_csv_yara_rule
        { author := "a", created := "d", version := "v", description := "x" }
        "data.csv" (calculate_file_hash none)).data
    ∧ ¬ ("        $indicator".data <+: (yara_file_entry "data.csv").data)
    ∧ ¬ ("        $indicator".data <+: (yara_hash_entry (calculate_file_hash none)).data)
    ∧ (generate_rules { author := "a", created := "d", version := "v", description := "x" }
        "data.csv" { file_type := none, file_size := none }
        { bytes := none, text := none } "n").metadata.indicators_found = [] :=
  c6_csv_branch _ "data.csv" _ none none (some "http://evil") "n" (by decide)

/-! ## C1: the embedded indicator literal -/

/-- Modelled from the amended claim's words: the substring after the last
colon (the whole string when no colon occurs) — reverse, take up to the
first colon, reverse back. -/
def afterLastColon (l : List Char) : List Char :=
  (l.reverse.takeWhile fun c => c != ':').reverse

/-- The `takeWhile` runs past a block on which the predicate always holds. -/
theorem takeWhile_append_all (p : α → Bool) :
    ∀ xs ys : List α, xs.all p = true → (xs ++ ys).takeWhile p = xs ++ ys.takeWhile p
  | [], _, _ => rfl
  | x :: xs, ys, h => by
    rw [List.all_cons, Bool.and_eq_true] at h
    simp only [List.cons_append, List.takeWhile_cons, h.1, if_true,
      takeWhile_append_all p xs ys h.2]

/-- The `takeWhile` of an all-true list is the list. -/
theorem takeWhile_all_self (p : α → Bool) :
    ∀ xs : List α, xs.all p = true → xs.takeWhile p = xs
  | [], _ => rfl
  | x :: xs, h => by
    rw [List.all_cons, Bool.and_eq_true] at h
    simp only [List.takeWhile_cons, h.1, if_true, takeWhile_all_self p xs h.2]

/-- The `takeWhile` never reaches past a failing block. -/
theorem takeWhile_append_stop (p : α → Bool) :
    ∀ xs ys : List α, xs.all p = false → (xs ++ ys).takeWhile p = xs.takeWhile p
  | [], _, h => by simp at h
  | x :: xs, ys, h => by
    cases hx : p x with
    | true =>
      rw [List.all_cons, hx, Bool.true_and] at h
      simp only [List.cons_append, List.takeWhile_cons, hx, if_true,
        takeWhile_append_stop p xs ys h]
    | false =>
      simp [List.cons_append, List.takeWhile_cons, hx]

/-- The `splitOnChar` never returns the empty list. -/
theorem splitOnChar_ne_nil (sep : Char) : ∀ l : List Char, splitOnChar sep l ≠ []
  | [] => by simp [splitOnChar]
  | c :: rest => by
    by_cases h : c = sep <;> simp [splitOnChar, h]

/-- Without the separator, `splitOnChar` returns the whole string alone. -/
theorem splitOnChar_no_sep (sep : Char) :
    ∀ l : List Char, sep ∉ l → splitOnChar sep l = [l]
  | [], _ => rfl
  | c :: rest, h => by
    have hc : ¬ c = sep := fun he => h (he ▸ List.mem_cons_self c rest)
    have hrest : sep ∉ rest := fun hm => h (List.mem_cons_of_mem c hm)
    simp [splitOnChar, hc, splitOnChar_no_sep sep rest hrest]

/-- With the separator present, `splitOnChar` returns at least two fields. -/
theorem splitOnChar_tail_ne_nil (sep : Char) :
    ∀ l : List Char, sep ∈ l → (splitOnChar sep l).tail ≠ []
  | c :: rest, h => by
    by_cases hc : c = sep
    · simp [splitOnChar, hc, splitOnChar_ne_nil sep rest]
    · have hrest : sep ∈ rest := by
        cases List.mem_cons.mp h with
        | inl he => exact absurd he.symm hc
        | inr hm => exact hm
      simp [splitOnChar, hc, splitOnChar_tail_ne_nil sep rest hrest]

/-- Unfolding `splitOnChar` at a separator character. -/
theorem splitOnChar_cons_self (sep : Char) (rest : List Char) :
    splitOnChar sep (sep :: rest) = [] :: splitOnChar sep rest := by
  simp [splitOnChar]

/-- Unfolding `splitOnChar` at a non-separator character. -/
theorem splitOnChar_cons_ne (sep c : Char) (rest : List Char) (h : ¬ c = sep) :
    splitOnChar sep (c :: rest) =
      (c :: (splitOnChar sep rest).headD []) :: (splitOnChar sep rest).tail := by
  simp [splitOnChar, h]

/-- The default argument of `getLastD` on a cons cell is irrelevant. -/
theorem getLastD_cons_irrel (a : α) (l : List α) (d d2 : α) :
    List.getLastD (a :: l) d = List.getLastD (a :: l) d2 := by
  rw [List.getLastD_cons, List.getLastD_cons]

/-- The last field of a Python colon-split is the substring after the last
colon (the whole string when no colon occurs). -/
theorem getLastD_splitOnChar (sep : Char) :
    ∀ l : List Char,
      List.getLastD (splitOnChar sep l) [] =
        ((l.reverse.takeWhile fun c => c != sep)).reverse
  | [] => rfl
  | c :: rest => by
    have ih := getLastD_splitOnChar sep rest
    by_cases hc : c = sep
    · subst hc
      rw [List.reverse_cons]
      have htail : ((rest.reverse ++ [c]).takeWhile fun x => x != c) =
          rest.reverse.takeWhile fun x => x != c := by
        cases hall : rest.reverse.all fun x => x != c with
        | true =>
          rw [takeWhile_append_all _ _ _ hall, takeWhile_all_self _ _ hall]
          simp [List.takeWhile_cons]
        | false => exact takeWhile_append_stop _ _ _ hall
      rw [htail, splitOnChar_cons_self, List.getLastD_cons]
      exact ih
    · rw [List.reverse_cons]
      by_cases hmem : sep ∈ rest
      · have hall : (rest.reverse.all fun x => x != sep) = false := by
          cases hval : rest.reverse.all fun x => x != sep with
          | true =>
            have := List.all_eq_true.mp hval sep (List.mem_reverse.mpr hmem)
            simp at this
          | false => rfl
        rw [takeWhile_append_stop _ _ _ hall, splitOnChar_cons_ne sep c rest hc,
          List.getLastD_cons]
        have htne := splitOnChar_tail_ne_nil sep rest hmem
        rcases hS : splitOnChar sep rest with _ | ⟨s0, st⟩
        · exact absurd hS (splitOnChar_ne_nil sep rest)
        · rw [hS] at htne
          simp only [List.tail_cons, List.headD_cons] at htne ⊢
          rcases st with _ | ⟨t0, ts⟩
          · exact absurd rfl htne
          · rw [getLastD_cons_irrel t0 ts _ s0]
            rw [hS, List.getLastD_cons] at ih
            exact ih
      · have hall : (rest.reverse.all fun x => x != sep) = true := by
          rw [List.all_eq_true]
          intro x hx
          have hxs : x ≠ sep := fun he => hmem (he ▸ List.mem_reverse.mp hx)
          simpa using hxs
        have hkeep : ([c].takeWhile fun x => x != sep) = [c] := by
          simp [List.takeWhile_cons, hc]
        rw [takeWhile_append_all _ _ _ hall, hkeep,
          splitOnChar_cons_ne sep c rest hc, splitOnChar_no_sep sep rest hmem]
        simp [List.getLastD_cons, List.reverse_append]

/-- The code's indicator literal equals the trimmed substring after the last
colon. -/
theorem extract_indicator_text_eq (s : String) :
    extract_indicator_text s = String.mk (pyStrip (afterLastColon s.data)) := by
  unfold extract_indicator_text afterLastColon
  rw [getLastD_splitOnChar]

/-- The indicator entry as the amended claim words it: the literal is the
trimmed substring of the indicator after its last colon. -/
def spec_indicator_entry (i : Nat) (s : String) : String :=
  "        $indicator_" ++ toString i ++ " = \"" ++
    String.mk (pyStrip (afterLastColon s.data)) ++ "\" nocase"

/-- The spec-worded indicator entries, labelled from `i`. -/
def spec_indicator_entries_from (i : Nat) : List String → List String
  | [] => []
  | s :: rest => spec_indicator_entry i s :: spec_indicator_entries_from (i + 1) rest

/-- The code's entries agree with the spec-worded entries. -/
theorem indicator_entries_from_eq (i : Nat) :
    ∀ l : List String, indicator_entries_from i l = spec_indicator_entries_from i l
  | [] => rfl
  | s :: rest => by
    simp only [indicator_entries_from, spec_indicator_entries_from,
      indicator_entries_from_eq (i + 1) rest]
    unfold indicator_entry spec_indicator_entry
    rw [extract_indicator_text_eq]

/-- C1 counterexample: the claim says the embedded literal for the indicator
`"URL: http://"` is `"http://"` (the text after the colon, trimmed), but the
code takes the text after the *last* colon, so the rendered `$indicator_1`
entry carries the literal `"//"`. -/
theorem c1_counterexample :
    indicator_entry 1 "URL: http://" = "        $indicator_1 = \"//\" nocase"
    ∧ extract_indicator_text "URL: http://" = "//"
    ∧ extract_indicator_text "URL: http://" ≠ "http://" := by
  refine ⟨by decide, by decide, by decide⟩

/-- C1 amended: for every indicator string embedded into the rendered
pattern-rule, the embedded literal is the substring of the indicator after
its *last* colon, trimmed of surrounding whitespace; in particular the
indicator `"URL: http://"` is embedded with literal `"//"`. -/
theorem c1_literal_after_last_colon (fn h s : String) (inds : List String) :
    extract_indicator_text s = String.mk (pyStrip (afterLastColon s.data))
    ∧ create_strings_entries fn h inds =
        yara_file_entry fn :: yara_hash_entry h ::
          spec_indicator_entries_from 1 (inds.take 3)
    ∧ extract_indicator_text "URL: http://" = "//" := by
  refine ⟨extract_indicator_text_eq s, ?_, by decide⟩
  unfold create_strings_entries indicator_entries
  rw [indicator_entries_from_eq]

end SecRules
